import Mathlib

/-!
Verification of the playlist reconciliation core of the Spotify Autify server
(`src/server.js`). Pure functions are translated directly; the two remote
capabilities (the language-model generation call and the Spotify catalog
search) are modelled as oracle parameters, so each stateful routine becomes a
pure state-passing function that additionally records the calls it makes to
the oracles.
-/

namespace Autify

/-- JS `\s` whitespace class (ASCII part), as used by `normalizeText`. -/
def jsWs (c : Char) : Bool :=
  c == ' ' || c == '\t' || c == '\n' || c == '\r' || c == '\x0b' || c == '\x0c'

/-- JS `String.prototype.trim`: drop whitespace from both ends. -/
def jsTrim (s : String) : String :=
  String.mk (((s.data.dropWhile jsWs).reverse.dropWhile jsWs).reverse)

/-- JS `String.prototype.toLowerCase` (character-wise). -/
def jsLower (s : String) : String :=
  String.mk (s.data.map Char.toLower)

/-- One character step of `.replace(/[^a-z0-9\s]/g, ' ')` (applied after
lowercasing): characters outside `[a-z0-9\s]` become a space. -/
def keepChar (c : Char) : Char :=
  if ('a' ≤ c && c ≤ 'z') || ('0' ≤ c && c ≤ '9') || jsWs c then c else ' '

/-- Split a character list into the maximal runs of characters not satisfying
`p`, dropping empty runs.  This is the semantics of JS
`split(sep).filter(Boolean)` for a one-character separator class, and of the
`\s+`-collapsing in `normalizeText`. -/
def splitStep (p : Char → Bool) (c : Char) (acc : List Char × List (List Char)) :
    List Char × List (List Char) :=
  if p c then ([], if acc.1 = [] then acc.2 else acc.1 :: acc.2)
  else (c :: acc.1, acc.2)

def splitChunks (p : Char → Bool) (l : List Char) : List (List Char) :=
  let r := l.foldr (splitStep p) ([], [])
  if r.1 = [] then r.2 else r.1 :: r.2

/-- Join tokens with single spaces (the normal form produced by collapsing
`\s+` to a space and trimming). -/
def joinTokens : List (List Char) → List Char
  | [] => []
  | [t] => t
  | t :: ts => t ++ ' ' :: joinTokens ts

/-- `normalizeText` from `server.js`, producing the character list: lowercase,
replace everything outside `[a-z0-9\s]` by a space, collapse whitespace runs to
single spaces, trim. -/
def normalizeList (s : String) : List Char :=
  joinTokens (splitChunks jsWs ((s.data.map Char.toLower).map keepChar))

/-- `normalizeText` from `server.js` (string form). -/
def normalizeText (s : String) : String :=
  String.mk (normalizeList s)

/-- `makeTrackKey` from `server.js`. -/
def makeTrackKey (title artist : String) : String :=
  normalizeText title ++ "|" ++ normalizeText artist

/-- JS `String.prototype.includes`: contiguous-substring test. -/
def isSubstringOf (needle hay : List Char) : Bool :=
  decide (needle <:+: hay)

/-- Accumulator loop of `getArtistConfidence`: iterate over the item artist
names keeping the best score so far; an exact normalized match returns 1
immediately. -/
def confidenceGo (requestedTokens : List (List Char)) (requested : String) :
    List String → Rat → Rat
  | [], best => best
  | artistName :: rest, best =>
    let candidate := normalizeText artistName
    if candidate = "" then confidenceGo requestedTokens requested rest best
    else if candidate = requested then 1
    else if isSubstringOf requested.data candidate.data || isSubstringOf candidate.data requested.data then
      confidenceGo requestedTokens requested rest (max best (0.92 : Rat))
    else
      let candidateTokens := splitChunks (fun c => c == ' ') candidate.data
      let overlap := (requestedTokens.filter (fun t => candidateTokens.contains t)).length
      confidenceGo requestedTokens requested rest
        (max best ((overlap : Rat) / (requestedTokens.length : Rat)))

/-- `getArtistConfidence` from `server.js` (the item artists are abstracted to
their `name` strings). -/
def getArtistConfidence (itemArtists : List String) (requestedArtist : String) : Rat :=
  let requested := normalizeText requestedArtist
  if requested = "" then 0
  else
    let requestedTokens := splitChunks (fun c => c == ' ') requested.data
    if requestedTokens.length = 0 then 0
    else confidenceGo requestedTokens requested itemArtists 0

/-- A track item as returned by the catalog search (`data.tracks.items`
entries), abstracted to the fields the matcher reads. -/
structure SpotItem where
  uri : String
  name : String
  artists : List String
deriving DecidableEq

/-- `pickBestTrackCandidate` from `server.js`: score every item, sort
descending by score with the stable JS `Array.prototype.sort`
(comparator `(a, b) => b.score - a.score`), and keep the top item only when
its score reaches 0.8. -/
def pickBestTrackCandidate (items : List SpotItem) (requestedArtist : String) :
    Option SpotItem :=
  match items with
  | [] => none
  | _ :: _ =>
    let scored := items.map (fun item => (item, getArtistConfidence item.artists requestedArtist))
    let sorted := scored.mergeSort (fun a b => decide (b.2 ≤ a.2))
    match sorted with
    | [] => none
    | best :: _ => if best.2 < (0.8 : Rat) then none else some best.1

/-- A `(title, artist)` suggestion, as produced by the generator. -/
structure Candidate where
  title : String
  artist : String
deriving DecidableEq, Inhabited

/-- One entry of the parsed `tracks` array of the model response; `none`
fields are absent/null, and an empty string is falsy in the JS filter. -/
structure RawTrack where
  title : Option String
  artist : Option String
deriving DecidableEq

/-- JS truthiness of an optional string field. -/
def truthyStr : Option String → Bool
  | none => false
  | some s => s ≠ ""

/-- Outcome of the model call plus `parsePotentialJson` in `generateTracklist`:
either the parse threw, or it produced a value whose `tracks` field is an
array (`some`) or not (`none`). -/
inductive GenOutcome where
  | parseFailure
  | parsed (tracks : Option (List RawTrack))
deriving DecidableEq

/-- Generation errors thrown by `parsePotentialJson` / `generateTracklist`
(`GenerationParseError` / `EmptyGenerationError` in the design's taxonomy). -/
inductive GenError where
  | parseError
  | emptyOrMalformed
deriving DecidableEq

/-- `generateTracklist` from `server.js`, from the parse boundary onward: the
empty/malformed check runs on the parsed `tracks` array, then entries missing
a title or artist are dropped, the list is truncated to `trackCount`, and the
string fields are trimmed. -/
def generateTracklist (outcome : GenOutcome) (trackCount : Nat) :
    Except GenError (List Candidate) :=
  match outcome with
  | .parseFailure => .error .parseError
  | .parsed none => .error .emptyOrMalformed
  | .parsed (some tracks) =>
    if tracks.length = 0 then .error .emptyOrMalformed
    else
      .ok (((tracks.filter (fun t => truthyStr t.title && truthyStr t.artist)).take
          trackCount).map
        (fun t => { title := jsTrim (t.title.getD ""), artist := jsTrim (t.artist.getD "") }))

/-- A successful `findSpotifyTrackUri` result. -/
structure SpotMatch where
  uri : String
  matchedName : String
deriving DecidableEq

/-- One entry of the `matched` list (`{requested, matched, uri}` objects built
in `matchCandidatesToSpotify`; `duplicated` is absent — `false` — except on
duplicate-fill clones). -/
structure MatchResult where
  requested : Candidate
  matched : String
  uri : String
  duplicated : Bool
deriving DecidableEq, Inhabited

/-- The reconciliation state threaded through one `buildMatchedTrackPool`
run.  The JS `Set`s are modelled as lists in insertion order. -/
structure RState where
  matched : List MatchResult
  unmatched : List Candidate
  usedUris : List String
  attemptedTrackKeys : List String
deriving DecidableEq

/-- The state at the start of a run: all four collections empty. -/
def initialState : RState := ⟨[], [], [], []⟩

/-- `matchCandidatesToSpotify` from `server.js`, with `findSpotifyTrackUri`
abstracted as the `resolve` oracle.  Besides the updated state it returns the
list of candidates actually passed to `findSpotifyTrackUri`, in call order
(candidates whose track key was already attempted are skipped and produce no
call). -/
def matchCandidatesToSpotify (resolve : Candidate → Option SpotMatch) :
    List Candidate → RState → RState × List Candidate
  | [], st => (st, [])
  | c :: rest, st =>
    let key := makeTrackKey c.title c.artist
    if st.attemptedTrackKeys.contains key then
      matchCandidatesToSpotify resolve rest st
    else
      let st1 : RState := { st with attemptedTrackKeys := st.attemptedTrackKeys ++ [key] }
      match resolve c with
      | some m =>
        let st2 : RState :=
          if st1.usedUris.contains m.uri then st1
          else { st1 with
            usedUris := st1.usedUris ++ [m.uri]
            matched := st1.matched ++ [⟨c, m.matchedName, m.uri, false⟩] }
        let rest' := matchCandidatesToSpotify resolve rest st2
        (rest'.1, c :: rest'.2)
      | none =>
        let rest' := matchCandidatesToSpotify resolve rest
          { st1 with unmatched := st1.unmatched ++ [c] }
        (rest'.1, c :: rest'.2)

/-- `EMERGENCY_FALLBACK_TRACKS` from `server.js`. -/
def EMERGENCY_FALLBACK_TRACKS : List Candidate :=
  [⟨"Blinding Lights", "The Weeknd"⟩,
   ⟨"Dreams", "Fleetwood Mac"⟩,
   ⟨"Electric Feel", "MGMT"⟩,
   ⟨"Sunset Lover", "Petit Biscuit"⟩,
   ⟨"Midnight City", "M83"⟩,
   ⟨"Tame", "STRFKR"⟩,
   ⟨"Intro", "The xx"⟩,
   ⟨"Innerbloom", "RUFUS DU SOL"⟩,
   ⟨"Something About Us", "Daft Punk"⟩,
   ⟨"A Moment Apart", "ODESZA"⟩]

/-- `maxAttempts` in `buildMatchedTrackPool`. -/
def maxAttempts : Nat := 8

/-- Errors thrown by `buildMatchedTrackPool`: a generation error propagating
out of an expansion round, or the final `InsufficientMatchesError` with the
achieved and desired counts. -/
inductive BuildError where
  | generation (e : GenError)
  | insufficientMatches (achieved desired : Nat)
deriving DecidableEq

/-- Record of one `generateTracklist` request issued by an expansion round:
the (1-based) attempt number, the `matched`/`unmatched` lists at the start of
the round, and the requested count and exclusion list. -/
structure GenCall where
  attempt : Nat
  matchedBefore : List MatchResult
  unmatchedBefore : List Candidate
  trackCount : Nat
  excludedTracks : List Candidate
deriving DecidableEq

/-- The oracle for the model side of `generateTracklist`: given the attempt
number, the requested count and the exclusion list (the data that shape the
prompt), it yields the parsed response. -/
def GenOracle : Type := Nat → Nat → List Candidate → GenOutcome

/-- The `while (matched.length < desiredCount && attempt < maxAttempts)` loop
of `buildMatchedTrackPool`.  `fuel` counts the remaining allowed attempts
(initially `maxAttempts`, so `fuel = maxAttempts - attempt` throughout), which
makes the recursion structural.  Returns the loop result (or the generation
error, which the source does not catch), the list of generation requests
issued, and the trace of `findSpotifyTrackUri` calls. -/
def expandLoop (model : GenOracle) (resolve : Candidate → Option SpotMatch)
    (desiredCount : Nat) :
    Nat → Nat → RState → Except GenError RState × List GenCall × List Candidate
  | 0, _, st => (.ok st, [], [])
  | fuel + 1, attempt, st =>
    if st.matched.length < desiredCount then
      let attempt' := attempt + 1
      let needed := desiredCount - st.matched.length
      let generateCount := min 50 (max (needed * 3) 8)
      let excludedTracks := (st.matched.map (fun m => m.requested) ++ st.unmatched).take 80
      let call : GenCall := ⟨attempt', st.matched, st.unmatched, generateCount, excludedTracks⟩
      match generateTracklist (model attempt' generateCount excludedTracks) generateCount with
      | .error e => (.error e, [call], [])
      | .ok generated =>
        let stepped := matchCandidatesToSpotify resolve generated st
        let rest := expandLoop model resolve desiredCount fuel attempt' stepped.1
        (rest.1, call :: rest.2.1, stepped.2 ++ rest.2.2)
    else (.ok st, [], [])

/-- The fallback step of `buildMatchedTrackPool`: when still short, resolve
the emergency fallback tracks under the same dedup rules. -/
def fallbackPhase (resolve : Candidate → Option SpotMatch) (desiredCount : Nat)
    (st : RState) : RState × List Candidate :=
  if st.matched.length < desiredCount then
    matchCandidatesToSpotify resolve EMERGENCY_FALLBACK_TRACKS st
  else (st, [])

/-- The clone pushed by the duplicate-fill loop. -/
def dupClone (m : MatchResult) : MatchResult :=
  ⟨m.requested, m.matched ++ " (duplicate fill)", m.uri, true⟩

/-- Body of the duplicate-fill `while` loop: `base` is the snapshot
`[...matched]`, and each step pushes a clone of `base[idx % base.length]`.
`fuel` bounds the iterations (the caller passes `desiredCount`, which always
suffices since each step grows `matched` by one). -/
def duplicateFillGo (base : List MatchResult) (desiredCount : Nat) :
    Nat → List MatchResult → Nat → Nat → List MatchResult × Nat
  | 0, matched, _, cnt => (matched, cnt)
  | fuel + 1, matched, idx, cnt =>
    if matched.length < desiredCount then
      duplicateFillGo base desiredCount fuel
        (matched ++ [dupClone (base.getD (idx % base.length) default)]) (idx + 1) (cnt + 1)
    else (matched, cnt)

/-- The duplicate-fill stage of `buildMatchedTrackPool` (lines 310–325):
when the pool is still short and at least one match exists, cyclically clone
the existing matches until the length reaches `desiredCount`; returns the
filled list and `duplicateFillCount`. -/
def duplicateFill (desiredCount : Nat) (matched : List MatchResult) :
    List MatchResult × Nat :=
  if matched.length < desiredCount ∧ 0 < matched.length then
    duplicateFillGo matched desiredCount desiredCount matched 0 0
  else (matched, 0)

/-- Final result of a successful `buildMatchedTrackPool` run. -/
structure BuildResult where
  matched : List MatchResult
  unmatched : List Candidate
  duplicateFillCount : Nat
deriving DecidableEq

/-- `buildMatchedTrackPool` from `server.js`, parameterized by the generation
and resolution oracles.  Besides the result (or error) it returns the list of
generation requests and the full trace of `findSpotifyTrackUri` calls. -/
def buildMatchedTrackPool (model : GenOracle) (resolve : Candidate → Option SpotMatch)
    (desiredCount : Nat) (seedCandidates : List Candidate) :
    Except BuildError BuildResult × List GenCall × List Candidate :=
  let seeded := matchCandidatesToSpotify resolve seedCandidates initialState
  let expanded := expandLoop model resolve desiredCount maxAttempts 0 seeded.1
  match expanded.1 with
  | .error e => (.error (.generation e), expanded.2.1, seeded.2 ++ expanded.2.2)
  | .ok st2 =>
    let fb := fallbackPhase resolve desiredCount st2
    let fill := duplicateFill desiredCount fb.1.matched
    if fill.1.length < desiredCount then
      (.error (.insufficientMatches fill.1.length desiredCount), expanded.2.1,
        seeded.2 ++ expanded.2.2 ++ fb.2)
    else
      (.ok ⟨fill.1.take desiredCount, fb.1.unmatched, fill.2⟩, expanded.2.1,
        seeded.2 ++ expanded.2.2 ++ fb.2)

/-- One row of the preview table built by the `/api/preview-playlist`
handler. -/
structure PreviewRow where
  requested : Candidate
  matched : Bool
  matchedName : Option String
deriving DecidableEq

/-- State of the matching loop in the `/api/preview-playlist` handler. -/
structure PreviewState where
  matched : List MatchResult
  unmatched : List Candidate
  previewRows : List PreviewRow
  usedUris : List String
  attemptedTrackKeys : List String
deriving DecidableEq

/-- The empty preview state the handler starts from. -/
def initialPreviewState : PreviewState := ⟨[], [], [], [], []⟩

/-- The candidate-matching loop of the `/api/preview-playlist` handler
(server.js lines 529–556): it computes each candidate's track key and inserts
it into `attemptedTrackKeys` when absent, but calls `findSpotifyTrackUri` for
every candidate regardless.  Returns the final state and the trace of
`findSpotifyTrackUri` calls. -/
def previewMatchLoop (resolve : Candidate → Option SpotMatch) :
    List Candidate → PreviewState → PreviewState × List Candidate
  | [], st => (st, [])
  | c :: rest, st =>
    let key := makeTrackKey c.title c.artist
    let st1 : PreviewState :=
      if st.attemptedTrackKeys.contains key then st
      else { st with attemptedTrackKeys := st.attemptedTrackKeys ++ [key] }
    let st2 : PreviewState :=
      match resolve c with
      | some m =>
        let st' :=
          if st1.usedUris.contains m.uri then st1
          else { st1 with
            usedUris := st1.usedUris ++ [m.uri]
            matched := st1.matched ++ [⟨c, m.matchedName, m.uri, false⟩] }
        { st' with previewRows := st'.previewRows ++ [⟨c, true, some m.matchedName⟩] }
      | none =>
        { st1 with
          unmatched := st1.unmatched ++ [c]
          previewRows := st1.previewRows ++ [⟨c, false, none⟩] }
    let rest' := previewMatchLoop resolve rest st2
    (rest'.1, c :: rest'.2)

/-- `clampTrackCount` from `server.js`.  The argument is the result of the JS
`Number(value)` conversion (`none` for `NaN`); `Number(value) || 20` maps
`NaN` and `0` to the default 20, then the value is clamped to `[5, 50]`. -/
def clampTrackCount (value : Option Rat) : Rat :=
  min (max (match value with
    | none => 20
    | some x => if x = 0 then 20 else x) 5) 50

/-- The parsed `/spotAI` command options. -/
structure SpotAiParams where
  playlistName : String
  folderName : String
  trackCount : Rat
  isPublic : Bool
  description : String
deriving DecidableEq

/-- The `defaults` object in `parseSpotAiCommand`. -/
def spotAiDefaults : SpotAiParams := ⟨"Autify Playlist", "Autify", 20, false, ""⟩

/-- The sequence of keyed assignments in the `parseSpotAiCommand` loop body
(one `if` per recognized key, applied in source order). -/
def applySpotAiAssign (jsNumber : String → Option Rat) (parsed : SpotAiParams)
    (key value : String) : SpotAiParams :=
  let p1 := if key = "name" then { parsed with playlistName := value } else parsed
  let p2 := if key = "folder" then { p1 with folderName := value } else p1
  let p3 :=
    if key = "count" then { p2 with trackCount := clampTrackCount (jsNumber value) }
    else p2
  let p4 :=
    if key = "public" then
      { p3 with isPublic := ["1", "true", "yes", "y"].contains (jsLower value) }
    else p3
  if key = "desc" ∨ key = "description" then { p4 with description := value } else p4

/-- One iteration of the `for (const part of parts)` loop in
`parseSpotAiCommand`.  `jsNumber` models the JS `Number(string)` conversion
(`none` for `NaN`). -/
def applySpotAiPart (jsNumber : String → Option Rat) (parsed : SpotAiParams)
    (part : String) : SpotAiParams :=
  match part.data.findIdx? (fun c => c == '=') with
  | none => parsed
  | some idx =>
    if idx < 1 then parsed
    else
      applySpotAiAssign jsNumber parsed
        (jsLower (jsTrim (String.mk (part.data.take idx))))
        (jsTrim (String.mk (part.data.drop (idx + 1))))

/-- `parseSpotAiCommand` from `server.js`: trim, split on `;`, drop blank
parts, and fold the `key=value` assignments over the defaults. -/
def parseSpotAiCommand (jsNumber : String → Option Rat) (text : String) : SpotAiParams :=
  let raw := jsTrim text
  if raw = "" then spotAiDefaults
  else
    let parts :=
      (((splitChunks (fun c => c == ';') raw.data).map (fun p => jsTrim (String.mk p))).filter
        (fun p => p ≠ ""))
    parts.foldl (applySpotAiPart jsNumber) spotAiDefaults

/-- The per-candidate score of the specification's `scoreArtist` formula,
read literally: exact normalized match gives 1, substring containment in
either direction gives 0.92, otherwise the token-overlap ratio (requested
tokens shared with the candidate over requested tokens).  Both arguments are
already normalized. -/
def specCandidateScore (req cand : String) : Rat :=
  if cand = req then 1
  else if isSubstringOf req.data cand.data || isSubstringOf cand.data req.data then (0.92 : Rat)
  else
    let reqTokens := splitChunks (fun c => c == ' ') req.data
    let candTokens := splitChunks (fun c => c == ' ') cand.data
    ((reqTokens.filter (fun t => candTokens.contains t)).length : Rat) /
      ((reqTokens.length : Rat))

/-- `scoreArtist` as worded by the specification: normalize the requested
artist (empty gives 0) and take the maximum of the per-candidate scores over
the normalized candidate artist names. -/
def scoreArtistSpec (itemArtists : List String) (requestedArtist : String) : Rat :=
  let req := normalizeText requestedArtist
  if req = "" then 0
  else (itemArtists.map (fun a => specCandidateScore req (normalizeText a))).foldr max 0

/-- The specification formula amended with the guard the code applies: a
candidate whose name normalizes to the empty string is skipped (contributes
0) instead of entering the substring test. -/
def scoreArtistSpecSkip (itemArtists : List String) (requestedArtist : String) : Rat :=
  let req := normalizeText requestedArtist
  if req = "" then 0
  else
    (itemArtists.map (fun a =>
      let cand := normalizeText a
      if cand = "" then 0 else specCandidateScore req cand)).foldr max 0

/-! ### Lemmas about the splitter and the normal form -/

theorem splitFold_spec (p : Char → Bool) (l : List Char) :
    (∀ c ∈ (l.foldr (splitStep p) ([], [])).1, p c = false)
    ∧ ∀ tok ∈ (l.foldr (splitStep p) ([], [])).2, tok ≠ [] ∧ ∀ c ∈ tok, p c = false := by
  induction l with
  | nil => simp
  | cons c cs ih =>
    rcases ih with ⟨ih1, ih2⟩
    simp only [List.foldr_cons, splitStep]
    by_cases hc : p c
    · rw [if_pos hc]
      refine ⟨by simp, ?_⟩
      by_cases h1 : (cs.foldr (splitStep p) ([], [])).1 = []
      · simpa [h1] using ih2
      · simp only [if_neg h1]
        intro tok htok
        rcases List.mem_cons.mp htok with h | h
        · exact h ▸ ⟨h1, ih1⟩
        · exact ih2 tok h
    · rw [if_neg hc]
      refine ⟨?_, ih2⟩
      intro d hd
      rcases List.mem_cons.mp hd with h | h
      · subst h
        cases hpc : p d
        · rfl
        · exact absurd hpc hc
      · exact ih1 d h

theorem splitChunks_chunks (p : Char → Bool) (l : List Char) :
    ∀ tok ∈ splitChunks p l, tok ≠ [] ∧ ∀ c ∈ tok, p c = false := by
  unfold splitChunks
  have h := splitFold_spec p l
  by_cases h1 : (l.foldr (splitStep p) ([], [])).1 = []
  · simpa [h1] using h.2
  · simp only [if_neg h1]
    intro tok htok
    rcases List.mem_cons.mp htok with ht | ht
    · exact ht ▸ ⟨h1, h.1⟩
    · exact h.2 tok ht

theorem splitChunks_cons_ne_nil (p : Char → Bool) (c : Char) (l : List Char)
    (hc : p c = false) : splitChunks p (c :: l) ≠ [] := by
  unfold splitChunks
  simp only [List.foldr_cons, splitStep]
  simp [hc]

theorem joinTokens_head (c : Char) (tok : List Char) (ts : List (List Char)) :
    ∃ l, joinTokens ((c :: tok) :: ts) = c :: l := by
  cases ts with
  | nil => exact ⟨tok, rfl⟩
  | cons t ts => exact ⟨tok ++ ' ' :: joinTokens (t :: ts), rfl⟩

theorem normalizeText_space_tokens_ne_nil (s : String) (h : normalizeText s ≠ "") :
    splitChunks (fun c => c == ' ') (normalizeText s).data ≠ [] := by
  have hdata : (normalizeText s).data =
      joinTokens (splitChunks jsWs ((s.data.map Char.toLower).map keepChar)) := rfl
  cases hch : splitChunks jsWs ((s.data.map Char.toLower).map keepChar) with
  | nil =>
    exfalso
    apply h
    apply String.ext
    rw [hdata, hch]
    rfl
  | cons tok ts =>
    obtain ⟨htok, hchars⟩ :=
      splitChunks_chunks jsWs ((s.data.map Char.toLower).map keepChar) tok
        (by rw [hch]; exact List.mem_cons_self tok ts)
    obtain ⟨c, tok', rfl⟩ := List.exists_cons_of_ne_nil htok
    obtain ⟨l', hl'⟩ := joinTokens_head c tok' ts
    have hgoal : (normalizeText s).data = c :: l' := by rw [hdata, hch, hl']
    rw [hgoal]
    have hcw : jsWs c = false := hchars c (List.mem_cons_self c tok')
    have hcs : (c == ' ') = false := by
      cases hb : c == ' '
      · rfl
      · exact absurd hcw (by simp [jsWs, hb])
    exact splitChunks_cons_ne_nil _ c l' hcs

/-! ### The duplicate-fill loop (claim C6) -/

theorem duplicateFillGo_closed (base : List MatchResult) (d : Nat) :
    ∀ (fuel : Nat) (matched : List MatchResult) (idx cnt : Nat),
      d - matched.length ≤ fuel →
      duplicateFillGo base d fuel matched idx cnt =
        (matched ++ (List.range (d - matched.length)).map
            (fun i => dupClone (base.getD ((idx + i) % base.length) default)),
          cnt + (d - matched.length)) := by
  intro fuel
  induction fuel with
  | zero =>
    intro matched idx cnt h
    have h0 : d - matched.length = 0 := Nat.le_zero.mp h
    simp [duplicateFillGo, h0]
  | succ fuel ih =>
    intro matched idx cnt h
    by_cases hlt : matched.length < d
    · have hfuel :
          d - (matched ++ [dupClone (base.getD (idx % base.length) default)]).length ≤ fuel := by
        simp only [List.length_append, List.length_cons, List.length_nil]
        omega
      rw [duplicateFillGo, if_pos hlt, ih _ _ _ hfuel]
      have hn : d - matched.length = (d - (matched.length + 1)) + 1 := by omega
      refine Prod.ext ?_ ?_
      · simp only [List.length_append, List.length_cons, List.length_nil, List.append_assoc]
        congr 1
        rw [hn, List.range_succ_eq_map, List.map_cons, List.map_map]
        simp only [Nat.add_zero, List.cons_append, List.nil_append]
        congr 1
        refine List.map_congr_left (fun i _ => ?_)
        have : idx + 1 + i = idx + (i + 1) := by omega
        simp [Function.comp, this]
      · simp only [List.length_append, List.length_cons, List.length_nil]
        omega
    · have h0 : d - matched.length = 0 := by omega
      rw [duplicateFillGo, if_neg hlt]
      simp [h0]

theorem duplicateFill_closed (d : Nat) (matched : List MatchResult)
    (h0 : 0 < matched.length) (hd : matched.length < d) :
    duplicateFill d matched =
      (matched ++ (List.range (d - matched.length)).map
          (fun i => dupClone (matched.getD (i % matched.length) default)),
        d - matched.length) := by
  unfold duplicateFill
  rw [if_pos ⟨hd, h0⟩, duplicateFillGo_closed matched d d matched 0 0 (Nat.sub_le d _)]
  simp

theorem duplicateFill_of_not (d : Nat) (matched : List MatchResult)
    (h : ¬(matched.length < d ∧ 0 < matched.length)) :
    duplicateFill d matched = (matched, 0) := by
  unfold duplicateFill
  rw [if_neg h]

/-- C6: whenever the matched pool is still short and at least one match
exists, the duplicate-fill stage appends round-robin clones of the existing
matches, in their original order, each marked `duplicated = true` with the
" (duplicate fill)" annotation, until the length equals the desired count;
the returned `duplicateFillCount` is the number of clones added. -/
theorem duplicateFill_round_robin : ∀ (d : Nat) (matched : List MatchResult),
    0 < matched.length → matched.length < d →
    duplicateFill d matched =
      (matched ++ (List.range (d - matched.length)).map
          (fun i => dupClone (matched.getD (i % matched.length) default)),
        d - matched.length)
    ∧ (duplicateFill d matched).1.length = d
    ∧ ∀ m ∈ (duplicateFill d matched).1.drop matched.length, m.duplicated = true := by
  intro d matched h0 hd
  have hc := duplicateFill_closed d matched h0 hd
  refine ⟨hc, ?_, ?_⟩
  · rw [hc]
    simp only [List.length_append, List.length_map, List.length_range]
    omega
  · rw [hc]
    simp only [List.drop_left]
    intro m hm
    obtain ⟨i, _, rfl⟩ := List.mem_map.mp hm
    rfl

/-- Witness for C6 at a concrete two-element pool filled to five. -/
theorem duplicateFill_round_robin_witness :
    (duplicateFill 5 [⟨⟨"a", "z"⟩, "a", "uri:a", false⟩, ⟨⟨"b", "z"⟩, "b", "uri:b", false⟩]).1.length
      = 5 :=
  (duplicateFill_round_robin 5
    [⟨⟨"a", "z"⟩, "a", "uri:a", false⟩, ⟨⟨"b", "z"⟩, "b", "uri:b", false⟩]
    (by decide) (by decide)).2.1

/-! ### Generation post-filtering (claim C4) -/

/-- C4 counterexample: a parsed response with a nonempty `tracks` array whose
entries all lack an artist passes the emptiness check and yields an *empty*
candidate list without any error, contradicting the claim that an empty
filtered result always fails with `EmptyGenerationError`. -/
theorem generateTracklist_empty_after_filter :
    generateTracklist (GenOutcome.parsed (some [⟨some "x", none⟩])) 5 = .ok [] := rfl

/-- C4 (amended): the emptiness check is applied to the parsed `tracks` array
before filtering — `generateTracklist` fails with the empty/malformed error
exactly when `tracks` is missing, not an array, or empty, fails with the
parse error exactly when the JSON salvage failed, and otherwise returns the
entries with truthy title and artist, truncated to the requested count, with
both fields trimmed (possibly an empty list). -/
theorem generateTracklist_spec :
    (∀ (tracks : List RawTrack) (n : Nat), tracks ≠ [] →
        generateTracklist (.parsed (some tracks)) n =
          .ok (((tracks.filter (fun t => truthyStr t.title && truthyStr t.artist)).take n).map
            (fun t => ⟨jsTrim (t.title.getD ""), jsTrim (t.artist.getD "")⟩)))
    ∧ (∀ (o : GenOutcome) (n : Nat),
        generateTracklist o n = .error .emptyOrMalformed ↔
          o = .parsed none ∨ o = .parsed (some []))
    ∧ (∀ (o : GenOutcome) (n : Nat),
        generateTracklist o n = .error .parseError ↔ o = .parseFailure) := by
  refine ⟨?_, ?_, ?_⟩
  · intro tracks n h
    simp only [generateTracklist]
    rw [if_neg (fun hz => h (List.length_eq_zero.mp hz))]
  · intro o n
    rcases o with _ | (_ | ts)
    · simp [generateTracklist]
    · simp [generateTracklist]
    · by_cases hz : ts.length = 0
      · rw [List.length_eq_zero.mp hz]
        simp [generateTracklist]
      · have : ts ≠ [] := fun h => hz (by rw [h]; rfl)
        simp [generateTracklist, hz, this]
  · intro o n
    rcases o with _ | (_ | ts)
    · simp [generateTracklist]
    · simp [generateTracklist]
    · by_cases hz : ts.length = 0
      · simp [generateTracklist, hz]
      · simp [generateTracklist, hz]

/-- Witness for C4 at a concrete raw track list with padding to trim. -/
theorem generateTracklist_spec_witness :
    ([⟨some " A ", some "B"⟩] : List RawTrack) ≠ []
    ∧ generateTracklist (.parsed (some [⟨some " A ", some "B"⟩])) 5 =
        .ok (((([⟨some " A ", some "B"⟩] : List RawTrack).filter
            (fun t => truthyStr t.title && truthyStr t.artist)).take 5).map
          (fun t => ⟨jsTrim (t.title.getD ""), jsTrim (t.artist.getD "")⟩)) :=
  ⟨by decide, generateTracklist_spec.1 [⟨some " A ", some "B"⟩] 5 (by decide)⟩

/-! ### Generation failures abort the whole run (claim C3) -/

/-- C3 counterexample: with a model whose output never parses and a resolver
that never matches, the very first expansion round's generation error is
returned as the error of the whole `buildMatchedTrackPool` run — the run does
not continue to later rounds, the fallback, or the fill. -/
theorem buildPool_generation_error_concrete :
    (buildMatchedTrackPool (fun _ _ _ => GenOutcome.parseFailure) (fun _ => none) 5 []).1 =
      .error (.generation .parseError) := rfl

/-- C3 (amended): a generation error raised in any expansion round is not
caught inside `buildMatchedTrackPool`; it aborts the run, which returns that
generation error to the caller. -/
theorem buildPool_generation_error_propagates :
    ∀ (model : GenOracle) (resolve : Candidate → Option SpotMatch) (d : Nat)
      (seeds : List Candidate) (e : GenError),
      (expandLoop model resolve d maxAttempts 0
          (matchCandidatesToSpotify resolve seeds initialState).1).1 = .error e →
      (buildMatchedTrackPool model resolve d seeds).1 = .error (.generation e) := by
  intro m r d s e h
  simp only [buildMatchedTrackPool]
  rw [h]

/-- Witness for C3 at a concrete failing model. -/
theorem buildPool_generation_error_witness :
    (buildMatchedTrackPool (fun _ _ _ => GenOutcome.parseFailure) (fun _ => none) 7
        [⟨"s", "t"⟩]).1 = .error (.generation .parseError) :=
  buildPool_generation_error_propagates _ _ 7 [⟨"s", "t"⟩] .parseError rfl

/-! ### The preview handler resolves duplicate keys twice (claim C9) -/

/-- C9: the preview handler's loop calls `findSpotifyTrackUri` for both
occurrences of the same candidate (its `attemptedTrackKeys` set is updated
but never consulted to skip), while `matchCandidatesToSpotify` — the
reconciliation engine's loop — calls it only once for the same input. -/
theorem previewLoop_resolves_duplicate_key_twice :
    (previewMatchLoop (fun c => some ⟨"u1", c.title⟩) [⟨"a", "b"⟩, ⟨"a", "b"⟩]
        initialPreviewState).2 = [⟨"a", "b"⟩, ⟨"a", "b"⟩]
    ∧ (matchCandidatesToSpotify (fun c => some ⟨"u1", c.title⟩) [⟨"a", "b"⟩, ⟨"a", "b"⟩]
        initialState).2 = [⟨"a", "b"⟩] :=
  ⟨rfl, rfl⟩

/-! ### Track counts are clamped to [5, 50] (claim C10) -/

theorem clampTrackCount_mem (v : Option Rat) :
    5 ≤ clampTrackCount v ∧ clampTrackCount v ≤ 50 := by
  unfold clampTrackCount
  exact ⟨le_min (le_max_right _ _) (by norm_num), min_le_right _ _⟩

theorem applySpotAiAssign_trackCount (jsN : String → Option Rat) (acc : SpotAiParams)
    (key value : String) :
    (applySpotAiAssign jsN acc key value).trackCount = acc.trackCount
    ∨ ∃ v, (applySpotAiAssign jsN acc key value).trackCount = clampTrackCount v := by
  by_cases hc : key = "count"
  · refine Or.inr ⟨jsN value, ?_⟩
    simp [applySpotAiAssign, hc, apply_ite SpotAiParams.trackCount]
  · refine Or.inl ?_
    simp [applySpotAiAssign, hc, apply_ite SpotAiParams.trackCount]

theorem applySpotAiPart_trackCount (jsN : String → Option Rat) (acc : SpotAiParams)
    (part : String) :
    (applySpotAiPart jsN acc part).trackCount = acc.trackCount
    ∨ ∃ v, (applySpotAiPart jsN acc part).trackCount = clampTrackCount v := by
  rcases hfind : part.data.findIdx? (fun c => c == '=') with _ | idx
  · simp [applySpotAiPart, hfind]
  · simp only [applySpotAiPart, hfind]
    by_cases hidx : idx < 1
    · rw [if_pos hidx]
      exact Or.inl rfl
    · rw [if_neg hidx]
      exact applySpotAiAssign_trackCount jsN acc _ _

theorem foldl_trackCount_bounds (jsN : String → Option Rat) :
    ∀ (parts : List String) (acc : SpotAiParams),
      5 ≤ acc.trackCount → acc.trackCount ≤ 50 →
      5 ≤ (parts.foldl (applySpotAiPart jsN) acc).trackCount
      ∧ (parts.foldl (applySpotAiPart jsN) acc).trackCount ≤ 50 := by
  intro parts
  induction parts with
  | nil => exact fun acc h1 h2 => ⟨h1, h2⟩
  | cons p ps ih =>
    intro acc h1 h2
    simp only [List.foldl_cons]
    rcases applySpotAiPart_trackCount jsN acc p with h | ⟨v, h⟩
    · exact ih _ (h ▸ h1) (h ▸ h2)
    · exact ih _ (h ▸ (clampTrackCount_mem v).1) (h ▸ (clampTrackCount_mem v).2)

/-- C10: `clampTrackCount` always lands in `[5, 50]`, mapping missing,
non-numeric (`NaN`) and zero inputs to the default 20 first; consequently the
Slack command parser-the other public source of track counts-also only
produces counts in `[5, 50]`, so the reconciliation engine is never entered
with a desired count outside that range (in particular never 0). -/
theorem trackCount_always_clamped :
    (∀ v : Option Rat, 5 ≤ clampTrackCount v ∧ clampTrackCount v ≤ 50)
    ∧ clampTrackCount none = 20
    ∧ clampTrackCount (some 0) = 20
    ∧ ∀ (jsNumber : String → Option Rat) (text : String),
        5 ≤ (parseSpotAiCommand jsNumber text).trackCount
        ∧ (parseSpotAiCommand jsNumber text).trackCount ≤ 50 := by
  refine ⟨clampTrackCount_mem, by decide, by decide, ?_⟩
  intro jsN text
  unfold parseSpotAiCommand
  by_cases h : jsTrim text = ""
  · rw [if_pos h]
    exact ⟨by norm_num [spotAiDefaults], by norm_num [spotAiDefaults]⟩
  · rw [if_neg h]
    exact foldl_trackCount_bounds jsN _ spotAiDefaults (by norm_num [spotAiDefaults])
      (by norm_num [spotAiDefaults])

/-- Witness for C10 at concrete inputs. -/
theorem trackCount_always_clamped_witness :
    (5 ≤ clampTrackCount (some 99) ∧ clampTrackCount (some 99) ≤ 50)
    ∧ 5 ≤ (parseSpotAiCommand (fun _ => none) "count=abc").trackCount
    ∧ (parseSpotAiCommand (fun _ => none) "count=abc").trackCount ≤ 50 :=
  ⟨trackCount_always_clamped.1 (some 99),
    trackCount_always_clamped.2.2.2 (fun _ => none) "count=abc"⟩

/-! ### Head of the stable descending sort (claim C7) -/

theorem descLE_trans {α : Type} :
    ∀ a b c : α × Rat, (fun a b : α × Rat => decide (b.2 ≤ a.2)) a b →
      (fun a b : α × Rat => decide (b.2 ≤ a.2)) b c →
      (fun a b : α × Rat => decide (b.2 ≤ a.2)) a c := by
  intro a b c hab hbc
  simp only [decide_eq_true_eq] at *
  exact le_trans hbc hab

theorem descLE_total {α : Type} :
    ∀ a b : α × Rat, ((fun a b : α × Rat => decide (b.2 ≤ a.2)) a b
      || (fun a b : α × Rat => decide (b.2 ≤ a.2)) b a) = true := by
  intro a b
  simpa using le_total b.2 a.2

theorem mergeSort_desc_head_max {α : Type} (l : List (α × Rat)) (h : α × Rat)
    (t : List (α × Rat))
    (hs : l.mergeSort (fun a b => decide (b.2 ≤ a.2)) = h :: t) :
    ∀ x ∈ l, x.2 ≤ h.2 := by
  intro x hx
  have hsorted := List.sorted_mergeSort descLE_trans descLE_total l
  rw [hs] at hsorted
  have hx' : x ∈ h :: t := by
    rw [← hs]
    exact List.mem_mergeSort.mpr hx
  rcases List.mem_cons.mp hx' with rfl | hx''
  · exact le_refl _
  · exact of_decide_eq_true (List.rel_of_pairwise_cons hsorted hx'')

theorem mergeSort_desc_head_first {α : Type} :
    ∀ (l : List (α × Rat)) (h : α × Rat) (t : List (α × Rat)),
      l.mergeSort (fun a b => decide (b.2 ≤ a.2)) = h :: t →
      ∃ l₁ l₂, l = l₁ ++ h :: l₂ ∧ ∀ x ∈ l₁, x.2 < h.2 := by
  intro l
  induction l with
  | nil => intro h t hs; simp at hs
  | cons a l ih =>
    intro h t hs
    obtain ⟨s₁, s₂, e₁, e₂, hnot⟩ :=
      List.mergeSort_cons descLE_trans descLE_total a l
    cases s₁ with
    | nil =>
      rw [e₁] at hs
      simp only [List.nil_append] at hs
      injection hs with h1 _
      exact ⟨[], l, by rw [h1, List.nil_append], by simp⟩
    | cons b s₁' =>
      rw [e₁] at hs
      simp only [List.cons_append] at hs
      injection hs with h1 _
      subst h1
      have e₂' : l.mergeSort (fun a b : α × Rat => decide (b.2 ≤ a.2)) = b :: (s₁' ++ s₂) := by
        rw [e₂]
        rfl
      obtain ⟨m₁, m₂, hl, hsc⟩ := ih b (s₁' ++ s₂) e₂'
      refine ⟨a :: m₁, m₂, by rw [hl]; rfl, ?_⟩
      intro x hx
      rcases List.mem_cons.mp hx with rfl | hx'
      · have hb := hnot b (List.mem_cons_self b s₁')
        have hb' : ¬(b.2 ≤ x.2) := by simpa using hb
        exact not_le.mp hb'
      · exact hsc x hx'

theorem scored_snd (items : List SpotItem) (artist : String) :
    ∀ y ∈ items.map (fun item => (item, getArtistConfidence item.artists artist)),
      y.2 = getArtistConfidence y.1.artists artist := by
  intro y hy
  obtain ⟨x, _, rfl⟩ := List.mem_map.mp hy
  rfl

/-- C7: `pickBestTrackCandidate` returns `none` exactly when every item
scores below 0.8; otherwise it returns an item that scores at least 0.8, is
maximal among all items, and is the first item in original search-result
order achieving the maximal score (the JS sort is stable on score ties). -/
theorem pickBest_top_scorer : ∀ (items : List SpotItem) (artist : String),
    (pickBestTrackCandidate items artist = none ↔
      ∀ it ∈ items, getArtistConfidence it.artists artist < (0.8 : Rat))
    ∧ ∀ it, pickBestTrackCandidate items artist = some it →
        ((0.8 : Rat) ≤ getArtistConfidence it.artists artist
          ∧ (∀ x ∈ items,
              getArtistConfidence x.artists artist ≤ getArtistConfidence it.artists artist)
          ∧ ∃ l₁ l₂, items = l₁ ++ it :: l₂
              ∧ ∀ x ∈ l₁,
                  getArtistConfidence x.artists artist <
                    getArtistConfidence it.artists artist) := by
  intro items artist
  cases items with
  | nil =>
    refine ⟨by simp [pickBestTrackCandidate], ?_⟩
    intro it hit
    simp [pickBestTrackCandidate] at hit
  | cons i₀ rest =>
    have hne : ((i₀ :: rest).map
        (fun item => (item, getArtistConfidence item.artists artist))).mergeSort
          (fun a b => decide (b.2 ≤ a.2)) ≠ [] := by
      intro hq
      have := congrArg List.length hq
      simp at this
    obtain ⟨h, t, hsort⟩ := List.exists_cons_of_ne_nil hne
    have hmem : h ∈ (i₀ :: rest).map
        (fun item => (item, getArtistConfidence item.artists artist)) :=
      List.mem_mergeSort.mp (by rw [hsort]; exact List.mem_cons_self h t)
    have hsnd : h.2 = getArtistConfidence h.1.artists artist :=
      scored_snd (i₀ :: rest) artist h hmem
    have hfst : h.1 ∈ i₀ :: rest := by
      obtain ⟨x, hx, rfl⟩ := List.mem_map.mp hmem
      exact hx
    have hmax : ∀ x ∈ i₀ :: rest,
        getArtistConfidence x.artists artist ≤ h.2 := by
      intro x hxm
      have := mergeSort_desc_head_max _ h t hsort
        (x, getArtistConfidence x.artists artist) (List.mem_map_of_mem _ hxm)
      exact this
    have hpick : pickBestTrackCandidate (i₀ :: rest) artist =
        if h.2 < (0.8 : Rat) then none else some h.1 := by
      simp only [pickBestTrackCandidate]
      rw [hsort]
    by_cases hth : h.2 < (0.8 : Rat)
    · rw [if_pos hth] at hpick
      refine ⟨⟨fun _ => ?_, fun _ => hpick⟩, ?_⟩
      · intro it hit
        exact lt_of_le_of_lt (hmax it hit) hth
      · intro it hit
        rw [hpick] at hit
        exact absurd hit (by simp)
    · rw [if_neg hth] at hpick
      constructor
      · rw [hpick]
        constructor
        · intro habs
          exact absurd habs (by simp)
        · intro hall
          exact absurd (hsnd ▸ hall h.1 hfst) (not_lt.mpr (not_lt.mp hth))
      · intro it hit
        rw [hpick] at hit
        injection hit with hit
        subst hit
        refine ⟨hsnd ▸ not_lt.mp hth, fun x hx => hsnd ▸ hmax x hx, ?_⟩
        obtain ⟨L₁, L₂, hdec, hlt⟩ := mergeSort_desc_head_first _ h t hsort
        refine ⟨L₁.map Prod.fst, L₂.map Prod.fst, ?_, ?_⟩
        · have : ((i₀ :: rest).map
              (fun item => (item, getArtistConfidence item.artists artist))).map Prod.fst
                = i₀ :: rest := by
            rw [List.map_map]
            exact List.map_id _
          rw [← this, hdec]
          simp
        · intro x hx
          obtain ⟨y, hy, rfl⟩ := List.mem_map.mp hx
          have hy' : y ∈ (i₀ :: rest).map
              (fun item => (item, getArtistConfidence item.artists artist)) := by
            rw [hdec]
            exact List.mem_append_left _ hy
          have := scored_snd (i₀ :: rest) artist y hy'
          rw [← this, ← hsnd]
          exact hlt y hy

/-- Witness for C7 at a concrete single-item search result with an exact
artist match. -/
theorem pickBest_top_scorer_witness :
    pickBestTrackCandidate [⟨"u", "n", ["x"]⟩] "x" = some ⟨"u", "n", ["x"]⟩
    ∧ (0.8 : Rat) ≤ getArtistConfidence (["x"] : List String) "x" := by
  have hs : getArtistConfidence (["x"] : List String) "x" = 1 := by decide
  have hp : pickBestTrackCandidate [⟨"u", "n", ["x"]⟩] "x" = some ⟨"u", "n", ["x"]⟩ := by
    norm_num [pickBestTrackCandidate, hs]
  exact ⟨hp, ((pickBest_top_scorer [⟨"u", "n", ["x"]⟩] "x").2 ⟨"u", "n", ["x"]⟩ hp).1⟩

/-! ### Artist confidence versus the spec formula (claim C8) -/

theorem foldr_max_nonneg (l : List Rat) : 0 ≤ l.foldr max 0 := by
  induction l with
  | nil => exact le_refl 0
  | cons a l ih => exact le_trans ih (le_max_right a _)

theorem foldr_max_le (l : List Rat) (b : Rat) (hb : 0 ≤ b) (h : ∀ x ∈ l, x ≤ b) :
    l.foldr max 0 ≤ b := by
  induction l with
  | nil => exact hb
  | cons a l ih =>
    exact max_le (h a (List.mem_cons_self a l))
      (ih (fun x hx => h x (List.mem_cons_of_mem a hx)))

theorem specCandidateScore_nonneg (req cand : String) :
    0 ≤ specCandidateScore req cand := by
  unfold specCandidateScore
  split
  · norm_num
  · split
    · norm_num
    · exact div_nonneg (Nat.cast_nonneg _) (Nat.cast_nonneg _)

theorem specCandidateScore_le_one (req cand : String) :
    specCandidateScore req cand ≤ 1 := by
  unfold specCandidateScore
  split
  · norm_num
  · split
    · norm_num
    · by_cases hz : (splitChunks (fun c => c == ' ') req.data).length = 0
      · simp [hz]
      · rw [div_le_one (by exact_mod_cast Nat.pos_of_ne_zero hz)]
        exact_mod_cast List.length_filter_le _ _

theorem confidenceGo_eq (req : String) (artists : List String) :
    ∀ best : Rat, 0 ≤ best → best ≤ 1 →
      confidenceGo (splitChunks (fun c => c == ' ') req.data) req artists best =
        max best ((artists.map (fun a =>
          if normalizeText a = "" then 0
          else specCandidateScore req (normalizeText a))).foldr max 0) := by
  induction artists with
  | nil =>
    intro best h0 _
    simp only [List.map_nil, List.foldr_nil, confidenceGo]
    exact (max_eq_left h0).symm
  | cons a rest ih =>
    intro best h0 h1
    have hrest_le : ((rest.map (fun a =>
        if normalizeText a = "" then 0
        else specCandidateScore req (normalizeText a))).foldr max 0) ≤ 1 := by
      refine foldr_max_le _ 1 (by norm_num) ?_
      intro x hx
      obtain ⟨y, _, rfl⟩ := List.mem_map.mp hx
      split
      · norm_num
      · exact specCandidateScore_le_one _ _
    have hrest_nn : 0 ≤ ((rest.map (fun a =>
        if normalizeText a = "" then 0
        else specCandidateScore req (normalizeText a))).foldr max 0) :=
      foldr_max_nonneg _
    simp only [confidenceGo, List.map_cons, List.foldr_cons]
    by_cases hemp : normalizeText a = ""
    · rw [if_pos hemp, if_pos hemp, ih best h0 h1,
        max_eq_right (a := (0 : Rat)) hrest_nn]
    · rw [if_neg hemp, if_neg hemp]
      by_cases hexact : normalizeText a = req
      · rw [if_pos hexact]
        have hS : specCandidateScore req (normalizeText a) = 1 := by
          unfold specCandidateScore
          rw [if_pos hexact]
        rw [hS, max_eq_left hrest_le, max_eq_right h1]
      · rw [if_neg hexact]
        by_cases hsub : (isSubstringOf req.data (normalizeText a).data
            || isSubstringOf (normalizeText a).data req.data) = true
        · rw [if_pos hsub]
          have hS : specCandidateScore req (normalizeText a) = (0.92 : Rat) := by
            unfold specCandidateScore
            rw [if_neg hexact, if_pos hsub]
          rw [ih (max best 0.92) (le_trans h0 (le_max_left _ _))
            (max_le h1 (by norm_num)), hS, max_assoc]
        · rw [if_neg hsub]
          have hS : specCandidateScore req (normalizeText a) =
              (((splitChunks (fun c => c == ' ') req.data).filter
                  (fun t => ((splitChunks (fun c => c == ' ')
                    (normalizeText a).data).contains t))).length : Rat) /
                (((splitChunks (fun c => c == ' ') req.data).length : Rat)) := by
            unfold specCandidateScore
            rw [if_neg hexact, if_neg hsub]
          have hS_nn : 0 ≤ (((splitChunks (fun c => c == ' ') req.data).filter
              (fun t => ((splitChunks (fun c => c == ' ')
                (normalizeText a).data).contains t))).length : Rat) /
                (((splitChunks (fun c => c == ' ') req.data).length : Rat)) :=
            hS ▸ specCandidateScore_nonneg req (normalizeText a)
          have hS_le : (((splitChunks (fun c => c == ' ') req.data).filter
              (fun t => ((splitChunks (fun c => c == ' ')
                (normalizeText a).data).contains t))).length : Rat) /
                (((splitChunks (fun c => c == ' ') req.data).length : Rat)) ≤ 1 :=
            hS ▸ specCandidateScore_le_one req (normalizeText a)
          rw [ih (max best _) (le_trans h0 (le_max_left _ _)) (max_le h1 hS_le), hS,
            max_assoc]

theorem getArtistConfidence_eq_specSkip (artists : List String) (req : String) :
    getArtistConfidence artists req = scoreArtistSpecSkip artists req := by
  simp only [getArtistConfidence, scoreArtistSpecSkip]
  by_cases h : normalizeText req = ""
  · rw [if_pos h, if_pos h]
  · rw [if_neg h, if_neg h]
    have htok := normalizeText_space_tokens_ne_nil req h
    rw [if_neg (fun hz : (splitChunks (fun c => c == ' ') (normalizeText req).data).length = 0
      => htok (List.length_eq_zero.mp hz))]
    rw [confidenceGo_eq (normalizeText req) artists 0 (le_refl 0) (by norm_num)]
    exact max_eq_right (foldr_max_nonneg _)

/-- C8 counterexample: a candidate artist name that normalizes to the empty
string ("!!") is skipped by the code (total score 0), while the
specification's formula as stated assigns it the 0.92 substring bonus (the
empty string is a substring of "ab" in either-direction containment). -/
theorem getArtistConfidence_spec_counterexample :
    getArtistConfidence ["!!"] "ab" = 0 ∧ scoreArtistSpec ["!!"] "ab" = (0.92 : Rat) := by
  constructor
  · decide
  · have hreq : normalizeText "ab" = "ab" := by decide
    have hcand : normalizeText "!!" = "" := by decide
    have hs : specCandidateScore "ab" "" = (0.92 : Rat) := by
      simp only [specCandidateScore]
      rw [if_neg (by decide : ¬("" : String) = "ab"), if_pos (by decide)]
    simp only [scoreArtistSpec, List.map_cons, List.map_nil, List.foldr_cons, List.foldr_nil,
      hcand, hreq]
    rw [if_neg (by decide : ¬("ab" : String) = ""), hs]
    exact max_eq_left (by norm_num)

/-- C8 (amended): `getArtistConfidence` is in `[0,1]`, returns 0 when the
requested artist normalizes to empty, is invariant under case/punctuation
variation, and equals the spec's maximum-over-candidates formula amended so
that candidate names normalizing to the empty string are skipped (contribute
0) rather than scored by substring containment. -/
theorem getArtistConfidence_spec :
    (∀ (artists : List String) (req : String),
        getArtistConfidence artists req = scoreArtistSpecSkip artists req
        ∧ 0 ≤ getArtistConfidence artists req
        ∧ getArtistConfidence artists req ≤ 1
        ∧ (normalizeText req = "" → getArtistConfidence artists req = 0))
    ∧ getArtistConfidence ["The Weeknd"] "the weeknd!!" = 1 := by
  constructor
  · intro artists req
    have heq := getArtistConfidence_eq_specSkip artists req
    have hbounds : 0 ≤ scoreArtistSpecSkip artists req
        ∧ scoreArtistSpecSkip artists req ≤ 1 := by
      simp only [scoreArtistSpecSkip]
      by_cases h : normalizeText req = ""
      · rw [if_pos h]
        norm_num
      · rw [if_neg h]
        refine ⟨foldr_max_nonneg _, foldr_max_le _ 1 (by norm_num) ?_⟩
        intro x hx
        obtain ⟨y, _, rfl⟩ := List.mem_map.mp hx
        split
        · norm_num
        · exact specCandidateScore_le_one _ _
    refine ⟨heq, heq ▸ hbounds.1, heq ▸ hbounds.2, ?_⟩
    intro h
    simp only [getArtistConfidence]
    rw [if_pos h]
  · decide

/-- Witness for C8 at a concrete empty-normalizing requested artist. -/
theorem getArtistConfidence_spec_witness :
    normalizeText "" = "" ∧ getArtistConfidence [] "" = 0 :=
  ⟨by decide, (getArtistConfidence_spec.1 [] "").2.2.2 (by decide)⟩

/-! ### Invariants of the matching loop (claims C1, C2) -/

/-- The state invariant of one reconciliation run: `usedUris` is exactly the
list of matched uris, those uris are pairwise distinct, and no entry of
`matched` is a duplicate-fill clone. -/
def RInv (st : RState) : Prop :=
  st.usedUris = st.matched.map (fun m => m.uri)
  ∧ (st.matched.map (fun m => m.uri)).Nodup
  ∧ ∀ m ∈ st.matched, m.duplicated = false

theorem RInv_initial : RInv initialState :=
  ⟨rfl, List.nodup_nil, by simp [initialState]⟩

theorem mcts_cons_skip (r : Candidate → Option SpotMatch) (c : Candidate)
    (rest : List Candidate) (st : RState)
    (hk : st.attemptedTrackKeys.contains (makeTrackKey c.title c.artist) = true) :
    matchCandidatesToSpotify r (c :: rest) st = matchCandidatesToSpotify r rest st := by
  simp only [matchCandidatesToSpotify]
  rw [if_pos hk]

theorem mcts_cons_none (r : Candidate → Option SpotMatch) (c : Candidate)
    (rest : List Candidate) (st : RState)
    (hk : ¬ st.attemptedTrackKeys.contains (makeTrackKey c.title c.artist) = true)
    (hres : r c = none) :
    matchCandidatesToSpotify r (c :: rest) st =
      ((matchCandidatesToSpotify r rest
          { st with
            unmatched := st.unmatched ++ [c]
            attemptedTrackKeys := st.attemptedTrackKeys ++ [makeTrackKey c.title c.artist] }).1,
        c :: (matchCandidatesToSpotify r rest
          { st with
            unmatched := st.unmatched ++ [c]
            attemptedTrackKeys :=
              st.attemptedTrackKeys ++ [makeTrackKey c.title c.artist] }).2) := by
  simp only [matchCandidatesToSpotify]
  rw [if_neg hk, hres]

theorem mcts_cons_dup (r : Candidate → Option SpotMatch) (c : Candidate)
    (rest : List Candidate) (st : RState) (m : SpotMatch)
    (hk : ¬ st.attemptedTrackKeys.contains (makeTrackKey c.title c.artist) = true)
    (hres : r c = some m) (hu : st.usedUris.contains m.uri = true) :
    matchCandidatesToSpotify r (c :: rest) st =
      ((matchCandidatesToSpotify r rest
          { st with
            attemptedTrackKeys := st.attemptedTrackKeys ++ [makeTrackKey c.title c.artist] }).1,
        c :: (matchCandidatesToSpotify r rest
          { st with
            attemptedTrackKeys :=
              st.attemptedTrackKeys ++ [makeTrackKey c.title c.artist] }).2) := by
  simp only [matchCandidatesToSpotify]
  rw [if_neg hk, hres]
  simp only []
  rw [if_pos (show ({ st with attemptedTrackKeys :=
      st.attemptedTrackKeys ++ [makeTrackKey c.title c.artist] } : RState).usedUris.contains
        m.uri = true from hu)]

theorem mcts_cons_new (r : Candidate → Option SpotMatch) (c : Candidate)
    (rest : List Candidate) (st : RState) (m : SpotMatch)
    (hk : ¬ st.attemptedTrackKeys.contains (makeTrackKey c.title c.artist) = true)
    (hres : r c = some m) (hu : ¬ st.usedUris.contains m.uri = true) :
    matchCandidatesToSpotify r (c :: rest) st =
      ((matchCandidatesToSpotify r rest
          { st with
            matched := st.matched ++ [⟨c, m.matchedName, m.uri, false⟩]
            usedUris := st.usedUris ++ [m.uri]
            attemptedTrackKeys := st.attemptedTrackKeys ++ [makeTrackKey c.title c.artist] }).1,
        c :: (matchCandidatesToSpotify r rest
          { st with
            matched := st.matched ++ [⟨c, m.matchedName, m.uri, false⟩]
            usedUris := st.usedUris ++ [m.uri]
            attemptedTrackKeys :=
              st.attemptedTrackKeys ++ [makeTrackKey c.title c.artist] }).2) := by
  simp only [matchCandidatesToSpotify]
  rw [if_neg hk, hres]
  simp only []
  rw [if_neg (show ¬ ({ st with attemptedTrackKeys :=
      st.attemptedTrackKeys ++ [makeTrackKey c.title c.artist] } : RState).usedUris.contains
        m.uri = true from hu)]

theorem mcts_matched_prefix (r : Candidate → Option SpotMatch) :
    ∀ (cs : List Candidate) (st : RState),
      ∃ suf, (matchCandidatesToSpotify r cs st).1.matched = st.matched ++ suf := by
  intro cs
  induction cs with
  | nil => exact fun st => ⟨[], by simp [matchCandidatesToSpotify]⟩
  | cons c rest ih =>
    intro st
    by_cases hk : st.attemptedTrackKeys.contains (makeTrackKey c.title c.artist) = true
    · rw [mcts_cons_skip r c rest st hk]
      exact ih st
    · cases hres : r c with
      | none =>
        rw [mcts_cons_none r c rest st hk hres]
        exact ih _
      | some m =>
        by_cases hu : st.usedUris.contains m.uri = true
        · rw [mcts_cons_dup r c rest st m hk hres hu]
          exact ih _
        · rw [mcts_cons_new r c rest st m hk hres hu]
          obtain ⟨suf, hsuf⟩ := ih
            { st with
              matched := st.matched ++ [⟨c, m.matchedName, m.uri, false⟩]
              usedUris := st.usedUris ++ [m.uri]
              attemptedTrackKeys := st.attemptedTrackKeys ++ [makeTrackKey c.title c.artist] }
          refine ⟨(⟨c, m.matchedName, m.uri, false⟩ : MatchResult) :: suf, ?_⟩
          rw [hsuf]
          simp

theorem mcts_inv (r : Candidate → Option SpotMatch) :
    ∀ (cs : List Candidate) (st : RState), RInv st →
      RInv (matchCandidatesToSpotify r cs st).1 := by
  intro cs
  induction cs with
  | nil => exact fun st h => h
  | cons c rest ih =>
    intro st h
    by_cases hk : st.attemptedTrackKeys.contains (makeTrackKey c.title c.artist) = true
    · rw [mcts_cons_skip r c rest st hk]
      exact ih st h
    · cases hres : r c with
      | none =>
        rw [mcts_cons_none r c rest st hk hres]
        exact ih _ ⟨h.1, h.2.1, h.2.2⟩
      | some m =>
        by_cases hu : st.usedUris.contains m.uri = true
        · rw [mcts_cons_dup r c rest st m hk hres hu]
          exact ih _ ⟨h.1, h.2.1, h.2.2⟩
        · rw [mcts_cons_new r c rest st m hk hres hu]
          apply ih
          have hnotmem : m.uri ∉ st.matched.map (fun mm => mm.uri) := by
            intro hmem
            apply hu
            rw [h.1]
            exact List.elem_iff.mpr hmem
          refine ⟨?_, ?_, ?_⟩
          · show st.usedUris ++ [m.uri] =
              (st.matched ++ [(⟨c, m.matchedName, m.uri, false⟩ : MatchResult)]).map
                (fun mm => mm.uri)
            rw [List.map_append, h.1]
            rfl
          · show ((st.matched ++ [(⟨c, m.matchedName, m.uri, false⟩ : MatchResult)]).map
              (fun mm => mm.uri)).Nodup
            rw [List.map_append]
            refine List.Nodup.append h.2.1 (by simp) ?_
            intro x hx hy
            simp only [List.map_cons, List.map_nil, List.mem_singleton] at hy
            exact hnotmem (hy ▸ hx)
          · show ∀ mm ∈ st.matched ++ [(⟨c, m.matchedName, m.uri, false⟩ : MatchResult)],
              mm.duplicated = false
            intro mm hmm
            rcases List.mem_append.mp hmm with hmm | hmm
            · exact h.2.2 mm hmm
            · simp only [List.mem_singleton] at hmm
              rw [hmm]

theorem mcts_matched_nil_fwd (r : Candidate → Option SpotMatch) :
    ∀ (cs : List Candidate) (st : RState), RInv st →
      (matchCandidatesToSpotify r cs st).1.matched = [] →
      st.matched = [] ∧ ∀ c ∈ (matchCandidatesToSpotify r cs st).2, r c = none := by
  intro cs
  induction cs with
  | nil => exact fun st _ h => ⟨h, by simp [matchCandidatesToSpotify]⟩
  | cons c rest ih =>
    intro st hinv hnil
    by_cases hk : st.attemptedTrackKeys.contains (makeTrackKey c.title c.artist) = true
    · rw [mcts_cons_skip r c rest st hk] at hnil ⊢
      exact ih st hinv hnil
    · cases hres : r c with
      | none =>
        rw [mcts_cons_none r c rest st hk hres] at hnil ⊢
        obtain ⟨h1, h2⟩ := ih
          { st with
            unmatched := st.unmatched ++ [c]
            attemptedTrackKeys := st.attemptedTrackKeys ++ [makeTrackKey c.title c.artist] }
          ⟨hinv.1, hinv.2.1, hinv.2.2⟩ hnil
        refine ⟨h1, ?_⟩
        intro x hx
        rcases List.mem_cons.mp hx with rfl | hx'
        · exact hres
        · exact h2 x hx'
      | some m =>
        by_cases hu : st.usedUris.contains m.uri = true
        · exfalso
          rw [mcts_cons_dup r c rest st m hk hres hu] at hnil
          obtain ⟨h1, _⟩ := ih
            { st with
              attemptedTrackKeys := st.attemptedTrackKeys ++ [makeTrackKey c.title c.artist] }
            ⟨hinv.1, hinv.2.1, hinv.2.2⟩ hnil
          have hused : st.usedUris = [] := by
            rw [hinv.1, show st.matched =
              ({ st with attemptedTrackKeys :=
                st.attemptedTrackKeys ++ [makeTrackKey c.title c.artist] } : RState).matched
              from rfl, h1]
            rfl
          rw [hused] at hu
          exact absurd hu (by simp)
        · exfalso
          rw [mcts_cons_new r c rest st m hk hres hu] at hnil
          obtain ⟨suf, hsuf⟩ := mcts_matched_prefix r rest
            { st with
              matched := st.matched ++ [⟨c, m.matchedName, m.uri, false⟩]
              usedUris := st.usedUris ++ [m.uri]
              attemptedTrackKeys := st.attemptedTrackKeys ++ [makeTrackKey c.title c.artist] }
          rw [hnil] at hsuf
          exact absurd hsuf.symm (by simp)

theorem mcts_none_bwd (r : Candidate → Option SpotMatch) :
    ∀ (cs : List Candidate) (st : RState),
      (∀ c ∈ (matchCandidatesToSpotify r cs st).2, r c = none) →
      (matchCandidatesToSpotify r cs st).1.matched = st.matched := by
  intro cs
  induction cs with
  | nil => exact fun st _ => rfl
  | cons c rest ih =>
    intro st hall
    by_cases hk : st.attemptedTrackKeys.contains (makeTrackKey c.title c.artist) = true
    · rw [mcts_cons_skip r c rest st hk] at hall ⊢
      exact ih st hall
    · cases hres : r c with
      | none =>
        rw [mcts_cons_none r c rest st hk hres] at hall ⊢
        exact ih _ (fun x hx => hall x (List.mem_cons_of_mem c hx))
      | some m =>
        exfalso
        by_cases hu : st.usedUris.contains m.uri = true
        · rw [mcts_cons_dup r c rest st m hk hres hu] at hall
          have := hall c (List.mem_cons_self c _)
          rw [hres] at this
          exact absurd this (by simp)
        · rw [mcts_cons_new r c rest st m hk hres hu] at hall
          have := hall c (List.mem_cons_self c _)
          rw [hres] at this
          exact absurd this (by simp)

/-! ### Stepping the expansion loop (claims C1, C2, C5) -/

theorem expandLoop_zero (m : GenOracle) (r : Candidate → Option SpotMatch) (d attempt : Nat)
    (st : RState) : expandLoop m r d 0 attempt st = (.ok st, [], []) := rfl

theorem expandLoop_succ_done (m : GenOracle) (r : Candidate → Option SpotMatch)
    (d fuel attempt : Nat) (st : RState) (h : ¬ st.matched.length < d) :
    expandLoop m r d (fuel + 1) attempt st = (.ok st, [], []) := by
  simp only [expandLoop]
  rw [if_neg h]

theorem expandLoop_succ_error (m : GenOracle) (r : Candidate → Option SpotMatch)
    (d fuel attempt : Nat) (st : RState) (e : GenError)
    (h : st.matched.length < d)
    (hgen : generateTracklist
        (m (attempt + 1) (min 50 (max ((d - st.matched.length) * 3) 8))
          ((st.matched.map (fun mm => mm.requested) ++ st.unmatched).take 80))
        (min 50 (max ((d - st.matched.length) * 3) 8)) = .error e) :
    expandLoop m r d (fuel + 1) attempt st =
      (.error e,
        [⟨attempt + 1, st.matched, st.unmatched, min 50 (max ((d - st.matched.length) * 3) 8),
          (st.matched.map (fun mm => mm.requested) ++ st.unmatched).take 80⟩], []) := by
  simp only [expandLoop]
  rw [if_pos h, hgen]

theorem expandLoop_succ_ok (m : GenOracle) (r : Candidate → Option SpotMatch)
    (d fuel attempt : Nat) (st : RState) (g : List Candidate)
    (h : st.matched.length < d)
    (hgen : generateTracklist
        (m (attempt + 1) (min 50 (max ((d - st.matched.length) * 3) 8))
          ((st.matched.map (fun mm => mm.requested) ++ st.unmatched).take 80))
        (min 50 (max ((d - st.matched.length) * 3) 8)) = .ok g) :
    expandLoop m r d (fuel + 1) attempt st =
      ((expandLoop m r d fuel (attempt + 1) (matchCandidatesToSpotify r g st).1).1,
        (⟨attempt + 1, st.matched, st.unmatched, min 50 (max ((d - st.matched.length) * 3) 8),
          (st.matched.map (fun mm => mm.requested) ++ st.unmatched).take 80⟩ : GenCall) ::
          (expandLoop m r d fuel (attempt + 1) (matchCandidatesToSpotify r g st).1).2.1,
        (matchCandidatesToSpotify r g st).2 ++
          (expandLoop m r d fuel (attempt + 1) (matchCandidatesToSpotify r g st).1).2.2) := by
  simp only [expandLoop]
  rw [if_pos h, hgen]

theorem expandLoop_inv (m : GenOracle) (r : Candidate → Option SpotMatch) (d : Nat) :
    ∀ (fuel attempt : Nat) (st : RState), RInv st → ∀ st' : RState,
      (expandLoop m r d fuel attempt st).1 = .ok st' → RInv st' := by
  intro fuel
  induction fuel with
  | zero =>
    intro attempt st h st' he
    rw [expandLoop_zero] at he
    obtain rfl : st = st' := by injection he
    exact h
  | succ fuel ih =>
    intro attempt st h st' he
    by_cases hlt : st.matched.length < d
    · cases hgen : generateTracklist
          (m (attempt + 1) (min 50 (max ((d - st.matched.length) * 3) 8))
            ((st.matched.map (fun mm => mm.requested) ++ st.unmatched).take 80))
          (min 50 (max ((d - st.matched.length) * 3) 8)) with
      | error e =>
        rw [expandLoop_succ_error m r d fuel attempt st e hlt hgen] at he
        exact absurd he (by simp)
      | ok g =>
        rw [expandLoop_succ_ok m r d fuel attempt st g hlt hgen] at he
        exact ih (attempt + 1) (matchCandidatesToSpotify r g st).1
          (mcts_inv r g st h) st' he
    · rw [expandLoop_succ_done m r d fuel attempt st hlt] at he
      obtain rfl : st = st' := by injection he
      exact h

theorem expandLoop_matched_nil_fwd (m : GenOracle) (r : Candidate → Option SpotMatch)
    (d : Nat) :
    ∀ (fuel attempt : Nat) (st : RState), RInv st → ∀ st' : RState,
      (expandLoop m r d fuel attempt st).1 = .ok st' → st'.matched = [] →
      st.matched = [] ∧ ∀ c ∈ (expandLoop m r d fuel attempt st).2.2, r c = none := by
  intro fuel
  induction fuel with
  | zero =>
    intro attempt st _ st' he hnil
    rw [expandLoop_zero] at he ⊢
    obtain rfl : st = st' := by injection he
    exact ⟨hnil, by simp⟩
  | succ fuel ih =>
    intro attempt st hinv st' he hnil
    by_cases hlt : st.matched.length < d
    · cases hgen : generateTracklist
          (m (attempt + 1) (min 50 (max ((d - st.matched.length) * 3) 8))
            ((st.matched.map (fun mm => mm.requested) ++ st.unmatched).take 80))
          (min 50 (max ((d - st.matched.length) * 3) 8)) with
      | error e =>
        rw [expandLoop_succ_error m r d fuel attempt st e hlt hgen] at he
        exact absurd he (by simp)
      | ok g =>
        rw [expandLoop_succ_ok m r d fuel attempt st g hlt hgen] at he ⊢
        obtain ⟨hstep, hrest⟩ := ih (attempt + 1) (matchCandidatesToSpotify r g st).1
          (mcts_inv r g st hinv) st' he hnil
        obtain ⟨h1, h2⟩ := mcts_matched_nil_fwd r g st hinv hstep
        refine ⟨h1, ?_⟩
        intro c hc
        rcases List.mem_append.mp hc with hc | hc
        · exact h2 c hc
        · exact hrest c hc
    · rw [expandLoop_succ_done m r d fuel attempt st hlt] at he ⊢
      obtain rfl : st = st' := by injection he
      exact ⟨hnil, by simp⟩

theorem expandLoop_none_bwd (m : GenOracle) (r : Candidate → Option SpotMatch) (d : Nat) :
    ∀ (fuel attempt : Nat) (st : RState),
      (∀ c ∈ (expandLoop m r d fuel attempt st).2.2, r c = none) → ∀ st' : RState,
      (expandLoop m r d fuel attempt st).1 = .ok st' → st'.matched = st.matched := by
  intro fuel
  induction fuel with
  | zero =>
    intro attempt st _ st' he
    rw [expandLoop_zero] at he
    obtain rfl : st = st' := by injection he
    rfl
  | succ fuel ih =>
    intro attempt st hall st' he
    by_cases hlt : st.matched.length < d
    · cases hgen : generateTracklist
          (m (attempt + 1) (min 50 (max ((d - st.matched.length) * 3) 8))
            ((st.matched.map (fun mm => mm.requested) ++ st.unmatched).take 80))
          (min 50 (max ((d - st.matched.length) * 3) 8)) with
      | error e =>
        rw [expandLoop_succ_error m r d fuel attempt st e hlt hgen] at he
        exact absurd he (by simp)
      | ok g =>
        rw [expandLoop_succ_ok m r d fuel attempt st g hlt hgen] at he hall
        have hmcts : ∀ c ∈ (matchCandidatesToSpotify r g st).2, r c = none :=
          fun c hc => hall c (List.mem_append_left _ hc)
        have hrest : ∀ c ∈ (expandLoop m r d fuel (attempt + 1)
            (matchCandidatesToSpotify r g st).1).2.2, r c = none :=
          fun c hc => hall c (List.mem_append_right _ hc)
        rw [ih (attempt + 1) (matchCandidatesToSpotify r g st).1 hrest st' he]
        exact mcts_none_bwd r g st hmcts
    · rw [expandLoop_succ_done m r d fuel attempt st hlt] at he
      obtain rfl : st = st' := by injection he
      rfl

theorem expandLoop_genCalls (m : GenOracle) (r : Candidate → Option SpotMatch) (d : Nat) :
    ∀ (fuel attempt : Nat) (st : RState),
      (expandLoop m r d fuel attempt st).2.1.length ≤ fuel
      ∧ ∀ call ∈ (expandLoop m r d fuel attempt st).2.1,
          call.matchedBefore.length < d
          ∧ call.trackCount = min 50 (max ((d - call.matchedBefore.length) * 3) 8)
          ∧ call.excludedTracks =
              (call.matchedBefore.map (fun mm => mm.requested) ++
                call.unmatchedBefore).take 80
          ∧ attempt + 1 ≤ call.attempt ∧ call.attempt ≤ attempt + fuel := by
  intro fuel
  induction fuel with
  | zero =>
    intro attempt st
    rw [expandLoop_zero]
    exact ⟨le_refl 0, by simp⟩
  | succ fuel ih =>
    intro attempt st
    by_cases hlt : st.matched.length < d
    · cases hgen : generateTracklist
          (m (attempt + 1) (min 50 (max ((d - st.matched.length) * 3) 8))
            ((st.matched.map (fun mm => mm.requested) ++ st.unmatched).take 80))
          (min 50 (max ((d - st.matched.length) * 3) 8)) with
      | error e =>
        rw [expandLoop_succ_error m r d fuel attempt st e hlt hgen]
        refine ⟨by simp, ?_⟩
        intro call hcall
        simp only [List.mem_singleton] at hcall
        subst hcall
        exact ⟨hlt, rfl, rfl, le_refl _, show attempt + 1 ≤ attempt + (fuel + 1) by omega⟩
      | ok g =>
        rw [expandLoop_succ_ok m r d fuel attempt st g hlt hgen]
        obtain ⟨hlen, hcalls⟩ := ih (attempt + 1) (matchCandidatesToSpotify r g st).1
        refine ⟨by simpa using Nat.succ_le_succ hlen, ?_⟩
        intro call hcall
        rcases List.mem_cons.mp hcall with rfl | hcall'
        · exact ⟨hlt, rfl, rfl, le_refl _, show attempt + 1 ≤ attempt + (fuel + 1) by omega⟩
        · obtain ⟨p1, p2, p3, p4, p5⟩ := hcalls call hcall'
          exact ⟨p1, p2, p3, by omega, by omega⟩
    · rw [expandLoop_succ_done m r d fuel attempt st hlt]
      exact ⟨by simp, by simp⟩

theorem fallbackPhase_inv (r : Candidate → Option SpotMatch) (d : Nat) (st : RState)
    (h : RInv st) : RInv (fallbackPhase r d st).1 := by
  unfold fallbackPhase
  split
  · exact mcts_inv r EMERGENCY_FALLBACK_TRACKS st h
  · exact h

theorem fallbackPhase_nil_fwd (r : Candidate → Option SpotMatch) (d : Nat) (st : RState)
    (hinv : RInv st) :
    (fallbackPhase r d st).1.matched = [] →
    st.matched = [] ∧ ∀ c ∈ (fallbackPhase r d st).2, r c = none := by
  unfold fallbackPhase
  split
  · exact mcts_matched_nil_fwd r EMERGENCY_FALLBACK_TRACKS st hinv
  · exact fun h => ⟨h, by simp⟩

theorem fallbackPhase_none_bwd (r : Candidate → Option SpotMatch) (d : Nat) (st : RState) :
    (∀ c ∈ (fallbackPhase r d st).2, r c = none) →
    (fallbackPhase r d st).1.matched = st.matched := by
  unfold fallbackPhase
  split
  · exact mcts_none_bwd r EMERGENCY_FALLBACK_TRACKS st
  · exact fun _ => rfl

/-! ### The assembled run (claims C1, C2, C5) -/

theorem build_eq_error (m : GenOracle) (r : Candidate → Option SpotMatch) (d : Nat)
    (s : List Candidate) (e : GenError)
    (hE : (expandLoop m r d maxAttempts 0
        (matchCandidatesToSpotify r s initialState).1).1 = .error e) :
    buildMatchedTrackPool m r d s =
      (.error (.generation e),
        (expandLoop m r d maxAttempts 0 (matchCandidatesToSpotify r s initialState).1).2.1,
        (matchCandidatesToSpotify r s initialState).2 ++
          (expandLoop m r d maxAttempts 0
            (matchCandidatesToSpotify r s initialState).1).2.2) := by
  simp only [buildMatchedTrackPool]
  rw [hE]

theorem build_eq_ok (m : GenOracle) (r : Candidate → Option SpotMatch) (d : Nat)
    (s : List Candidate) (st2 : RState)
    (hE : (expandLoop m r d maxAttempts 0
        (matchCandidatesToSpotify r s initialState).1).1 = .ok st2) :
    buildMatchedTrackPool m r d s =
      (if (duplicateFill d (fallbackPhase r d st2).1.matched).1.length < d then
        (.error (.insufficientMatches
            (duplicateFill d (fallbackPhase r d st2).1.matched).1.length d),
          (expandLoop m r d maxAttempts 0 (matchCandidatesToSpotify r s initialState).1).2.1,
          (matchCandidatesToSpotify r s initialState).2 ++
            (expandLoop m r d maxAttempts 0
              (matchCandidatesToSpotify r s initialState).1).2.2 ++
            (fallbackPhase r d st2).2)
      else
        (.ok ⟨(duplicateFill d (fallbackPhase r d st2).1.matched).1.take d,
            (fallbackPhase r d st2).1.unmatched,
            (duplicateFill d (fallbackPhase r d st2).1.matched).2⟩,
          (expandLoop m r d maxAttempts 0 (matchCandidatesToSpotify r s initialState).1).2.1,
          (matchCandidatesToSpotify r s initialState).2 ++
            (expandLoop m r d maxAttempts 0
              (matchCandidatesToSpotify r s initialState).1).2.2 ++
            (fallbackPhase r d st2).2)) := by
  simp only [buildMatchedTrackPool]
  rw [hE]

theorem pairwise_of_nodup_uris (l : List MatchResult)
    (h : (l.map (fun m => m.uri)).Nodup) :
    l.Pairwise (fun a b => a.uri = b.uri → a.duplicated = true ∨ b.duplicated = true) := by
  have hp := (List.pairwise_map).mp h
  exact hp.imp (fun hne heq => absurd heq hne)

theorem dupFill_pairwise (d : Nat) (M : List MatchResult)
    (hnodup : (M.map (fun m => m.uri)).Nodup) :
    (duplicateFill d M).1.Pairwise (fun a b => a.uri = b.uri →
      a.duplicated = true ∨ b.duplicated = true) := by
  by_cases hc : M.length < d ∧ 0 < M.length
  · rw [duplicateFill_closed d M hc.2 hc.1]
    have hdup : ∀ x ∈ (List.range (d - M.length)).map
        (fun i => dupClone (M.getD (i % M.length) default)), x.duplicated = true := by
      intro x hx
      obtain ⟨i, _, rfl⟩ := List.mem_map.mp hx
      rfl
    refine List.pairwise_append.mpr ⟨pairwise_of_nodup_uris M hnodup, ?_, ?_⟩
    · refine List.pairwise_of_forall_mem_list ?_
      intro a _ b hb _
      exact Or.inr (hdup b hb)
    · intro a _ b hb _
      exact Or.inr (hdup b hb)
  · rw [duplicateFill_of_not d M hc]
    exact pairwise_of_nodup_uris M hnodup

/-- C1: a `buildMatchedTrackPool` run that returns normally yields a matched
list of length exactly the desired count, in which any two entries sharing a
uri include at least one duplicate-fill clone (`duplicated = true`). -/
theorem buildPool_done_invariant :
    ∀ (model : GenOracle) (resolve : Candidate → Option SpotMatch) (d : Nat)
      (seeds : List Candidate) (res : BuildResult),
      (buildMatchedTrackPool model resolve d seeds).1 = .ok res →
      res.matched.length = d
      ∧ res.matched.Pairwise (fun a b => a.uri = b.uri →
          a.duplicated = true ∨ b.duplicated = true) := by
  intro m r d s res h
  rcases hE : (expandLoop m r d maxAttempts 0
      (matchCandidatesToSpotify r s initialState).1).1 with e | st2
  · rw [build_eq_error m r d s e hE] at h
    exact absurd h (by simp)
  · have hinv2 : RInv st2 := expandLoop_inv m r d maxAttempts 0 _
      (mcts_inv r s initialState RInv_initial) st2 hE
    have hinv3 : RInv (fallbackPhase r d st2).1 := fallbackPhase_inv r d st2 hinv2
    rw [build_eq_ok m r d s st2 hE] at h
    by_cases hfc : (duplicateFill d (fallbackPhase r d st2).1.matched).1.length < d
    · rw [if_pos hfc] at h
      exact absurd h (by simp)
    · rw [if_neg hfc] at h
      have h' : Except.ok
          (⟨(duplicateFill d (fallbackPhase r d st2).1.matched).1.take d,
            (fallbackPhase r d st2).1.unmatched,
            (duplicateFill d (fallbackPhase r d st2).1.matched).2⟩ : BuildResult) =
          Except.ok res := h
      injection h' with h''
      subst h''
      constructor
      · rw [List.length_take]
        omega
      · exact (dupFill_pairwise d _ hinv3.2.1).sublist (List.take_sublist d _)

/-- Witness for C1 at a concrete one-seed run. -/
theorem buildPool_done_witness :
    (⟨[⟨⟨"a", "b"⟩, "a", "uri:a", false⟩], [], 0⟩ : BuildResult).matched.length = 1
    ∧ (⟨[⟨⟨"a", "b"⟩, "a", "uri:a", false⟩], [], 0⟩ : BuildResult).matched.Pairwise
        (fun a b => a.uri = b.uri → a.duplicated = true ∨ b.duplicated = true) :=
  buildPool_done_invariant (fun _ _ _ => GenOutcome.parseFailure)
    (fun c => some ⟨"uri:" ++ c.title, c.title⟩) 1 [⟨"a", "b"⟩]
    ⟨[⟨⟨"a", "b"⟩, "a", "uri:a", false⟩], [], 0⟩ rfl

/-- C2 counterexample: a desired count of 0 does not fail fast — the run
returns normally with an empty matched list, because every `< desiredCount`
guard (loop, fallback, duplicate fill, and the final error check) is false
when `desiredCount = 0`. -/
theorem buildPool_desired_zero_no_error :
    (buildMatchedTrackPool (fun _ _ _ => GenOutcome.parseFailure) (fun _ => none) 0 []).1 =
      .ok ⟨[], [], 0⟩ := rfl

/-- C2 (amended): the run fails with `InsufficientMatchesError` carrying
achieved 0 and the desired count exactly when the pool is still empty after
seeding, expanding and fallback (every catalog resolution returned null) and
the desired count is positive; a desired count of 0 is trivially satisfied
and returns a normal, empty result rather than failing fast. -/
theorem buildPool_insufficient_characterization :
    ∀ (model : GenOracle) (resolve : Candidate → Option SpotMatch) (d : Nat)
      (seeds : List Candidate),
      (∀ a b, (buildMatchedTrackPool model resolve d seeds).1 =
          .error (.insufficientMatches a b) →
          a = 0 ∧ b = d ∧ 0 < d
          ∧ ∀ c ∈ (buildMatchedTrackPool model resolve d seeds).2.2, resolve c = none)
      ∧ ((0 < d ∧ (∀ c ∈ (buildMatchedTrackPool model resolve d seeds).2.2, resolve c = none)
            ∧ ∀ e, (buildMatchedTrackPool model resolve d seeds).1 ≠ .error (.generation e)) →
          (buildMatchedTrackPool model resolve d seeds).1 =
            .error (.insufficientMatches 0 d))
      ∧ (d = 0 → ∃ res, (buildMatchedTrackPool model resolve d seeds).1 = .ok res
          ∧ res.matched = [] ∧ res.duplicateFillCount = 0) := by
  intro m r d s
  rcases hE : (expandLoop m r d maxAttempts 0
      (matchCandidatesToSpotify r s initialState).1).1 with e | st2
  · refine ⟨?_, ?_, ?_⟩
    · intro a b h
      rw [build_eq_error m r d s e hE] at h
      exact absurd h (by simp)
    · rintro ⟨_, _, hne⟩
      exact absurd (by rw [build_eq_error m r d s e hE]) (hne e)
    · intro hd0
      subst hd0
      exfalso
      have h2 := expandLoop_succ_done m r 0 7 0
        (matchCandidatesToSpotify r s initialState).1 (by omega)
      rw [show maxAttempts = 7 + 1 from rfl, h2] at hE
      exact absurd hE (by simp)
  · have hinv1 : RInv (matchCandidatesToSpotify r s initialState).1 :=
      mcts_inv r s initialState RInv_initial
    have hinv2 : RInv st2 := expandLoop_inv m r d maxAttempts 0 _ hinv1 st2 hE
    refine ⟨?_, ?_, ?_⟩
    · intro a b h
      rw [build_eq_ok m r d s st2 hE] at h
      by_cases hfc : (duplicateFill d (fallbackPhase r d st2).1.matched).1.length < d
      · rw [if_pos hfc] at h
        have h' : Except.error (α := BuildResult) (BuildError.insufficientMatches
            (duplicateFill d (fallbackPhase r d st2).1.matched).1.length d) =
            Except.error (BuildError.insufficientMatches a b) := h
        injection h' with h''
        injection h'' with ha hb
        by_cases hc : (fallbackPhase r d st2).1.matched.length < d
            ∧ 0 < (fallbackPhase r d st2).1.matched.length
        · exfalso
          have hclosed := duplicateFill_closed d _ hc.2 hc.1
          rw [hclosed] at hfc
          simp only [List.length_append, List.length_map, List.length_range] at hfc
          omega
        · have hfill := duplicateFill_of_not d _ hc
          have hflen : (fallbackPhase r d st2).1.matched.length < d := by
            have hfc2 := hfc
            rw [hfill] at hfc2
            exact hfc2
          have ha' : (fallbackPhase r d st2).1.matched.length = a := by
            have ha2 := ha
            rw [hfill] at ha2
            exact ha2
          have hMlen : (fallbackPhase r d st2).1.matched.length = 0 := by
            rcases Nat.eq_zero_or_pos (fallbackPhase r d st2).1.matched.length with hz | hpos
            · exact hz
            · exact absurd ⟨hflen, hpos⟩ hc
          have hM : (fallbackPhase r d st2).1.matched = [] := List.length_eq_zero.mp hMlen
          obtain ⟨hst2, hfb⟩ := fallbackPhase_nil_fwd r d st2 hinv2 hM
          obtain ⟨hseed, hexp⟩ :=
            expandLoop_matched_nil_fwd m r d maxAttempts 0 _ hinv1 st2 hE hst2
          obtain ⟨_, hseedtr⟩ := mcts_matched_nil_fwd r s initialState RInv_initial hseed
          refine ⟨by omega, hb.symm, by omega, ?_⟩
          intro c hc'
          rw [build_eq_ok m r d s st2 hE] at hc'
          rw [if_pos hfc] at hc'
          rcases List.mem_append.mp hc' with hc'' | hc''
          · rcases List.mem_append.mp hc'' with hc3 | hc3
            · exact hseedtr c hc3
            · exact hexp c hc3
          · exact hfb c hc''
      · rw [if_neg hfc] at h
        exact absurd h (by simp)
    · rintro ⟨hd, hall, _⟩
      rw [build_eq_ok m r d s st2 hE] at hall ⊢
      by_cases hfc : (duplicateFill d (fallbackPhase r d st2).1.matched).1.length < d
      · rw [if_pos hfc] at hall ⊢
        have hseedtr : ∀ c ∈ (matchCandidatesToSpotify r s initialState).2, r c = none :=
          fun c hc => hall c (List.mem_append_left _ (List.mem_append_left _ hc))
        have hexp : ∀ c ∈ (expandLoop m r d maxAttempts 0
            (matchCandidatesToSpotify r s initialState).1).2.2, r c = none :=
          fun c hc => hall c (List.mem_append_left _ (List.mem_append_right _ hc))
        have hfb : ∀ c ∈ (fallbackPhase r d st2).2, r c = none :=
          fun c hc => hall c (List.mem_append_right _ hc)
        have hseed : (matchCandidatesToSpotify r s initialState).1.matched = [] := by
          rw [mcts_none_bwd r s initialState hseedtr]
          rfl
        have hst2 : st2.matched = [] := by
          rw [expandLoop_none_bwd m r d maxAttempts 0 _ hexp st2 hE, hseed]
        have hM : (fallbackPhase r d st2).1.matched = [] := by
          rw [fallbackPhase_none_bwd r d st2 hfb, hst2]
        have hfill := duplicateFill_of_not d (fallbackPhase r d st2).1.matched
          (by rw [hM]; simp)
        have : (duplicateFill d (fallbackPhase r d st2).1.matched).1.length = 0 := by
          rw [hfill, hM]
          rfl
        rw [this]
      · exfalso
        rw [if_neg hfc] at hall
        have hseedtr : ∀ c ∈ (matchCandidatesToSpotify r s initialState).2, r c = none :=
          fun c hc => hall c (List.mem_append_left _ (List.mem_append_left _ hc))
        have hexp : ∀ c ∈ (expandLoop m r d maxAttempts 0
            (matchCandidatesToSpotify r s initialState).1).2.2, r c = none :=
          fun c hc => hall c (List.mem_append_left _ (List.mem_append_right _ hc))
        have hfb : ∀ c ∈ (fallbackPhase r d st2).2, r c = none :=
          fun c hc => hall c (List.mem_append_right _ hc)
        have hseed : (matchCandidatesToSpotify r s initialState).1.matched = [] := by
          rw [mcts_none_bwd r s initialState hseedtr]
          rfl
        have hst2 : st2.matched = [] := by
          rw [expandLoop_none_bwd m r d maxAttempts 0 _ hexp st2 hE, hseed]
        have hM : (fallbackPhase r d st2).1.matched = [] := by
          rw [fallbackPhase_none_bwd r d st2 hfb, hst2]
        have hfill := duplicateFill_of_not d (fallbackPhase r d st2).1.matched
          (by rw [hM]; simp)
        rw [hfill, hM] at hfc
        exact hfc (by simpa using hd)
    · intro hd0
      subst hd0
      rw [build_eq_ok m r 0 s st2 hE]
      have hfc : ¬ (duplicateFill 0 (fallbackPhase r 0 st2).1.matched).1.length < 0 := by
        omega
      rw [if_neg hfc]
      refine ⟨⟨(duplicateFill 0 (fallbackPhase r 0 st2).1.matched).1.take 0,
        (fallbackPhase r 0 st2).1.unmatched,
        (duplicateFill 0 (fallbackPhase r 0 st2).1.matched).2⟩, rfl, by simp, ?_⟩
      show (duplicateFill 0 (fallbackPhase r 0 st2).1.matched).2 = 0
      rw [duplicateFill_of_not 0 (fallbackPhase r 0 st2).1.matched (by omega)]

/-- Witness for C2 at the concrete desired count 0. -/
theorem buildPool_insufficient_witness :
    ∃ res, (buildMatchedTrackPool (fun _ _ _ => GenOutcome.parseFailure)
        (fun _ => none) 0 []).1 = .ok res
      ∧ res.matched = [] ∧ res.duplicateFillCount = 0 :=
  (buildPool_insufficient_characterization (fun _ _ _ => GenOutcome.parseFailure)
    (fun _ => none) 0 []).2.2 rfl

/-- C5: every expansion round runs only while the pool is short, requests
exactly `min(50, max(needed*3, 8))` candidates where `needed` is the current
shortfall, passes as exclusions the matched requested candidates followed by
the unmatched candidates capped to 80 entries, and there are at most 8 such
rounds (attempt numbers 1..8). -/
theorem expansion_rounds_spec :
    ∀ (model : GenOracle) (resolve : Candidate → Option SpotMatch) (d : Nat)
      (seeds : List Candidate),
      (buildMatchedTrackPool model resolve d seeds).2.1.length ≤ maxAttempts
      ∧ ∀ call ∈ (buildMatchedTrackPool model resolve d seeds).2.1,
          call.matchedBefore.length < d
          ∧ call.trackCount = min 50 (max ((d - call.matchedBefore.length) * 3) 8)
          ∧ call.excludedTracks =
              (call.matchedBefore.map (fun mm => mm.requested) ++
                call.unmatchedBefore).take 80
          ∧ 1 ≤ call.attempt ∧ call.attempt ≤ maxAttempts := by
  intro m r d s
  have hbase := expandLoop_genCalls m r d maxAttempts 0
    (matchCandidatesToSpotify r s initialState).1
  have hfinal : (expandLoop m r d maxAttempts 0
        (matchCandidatesToSpotify r s initialState).1).2.1.length ≤ maxAttempts
      ∧ ∀ call ∈ (expandLoop m r d maxAttempts 0
          (matchCandidatesToSpotify r s initialState).1).2.1,
          call.matchedBefore.length < d
          ∧ call.trackCount = min 50 (max ((d - call.matchedBefore.length) * 3) 8)
          ∧ call.excludedTracks =
              (call.matchedBefore.map (fun mm => mm.requested) ++
                call.unmatchedBefore).take 80
          ∧ 1 ≤ call.attempt ∧ call.attempt ≤ maxAttempts := by
    refine ⟨hbase.1, ?_⟩
    intro call hcall
    obtain ⟨p1, p2, p3, p4, p5⟩ := hbase.2 call hcall
    exact ⟨p1, p2, p3, by omega, by omega⟩
  rcases hE : (expandLoop m r d maxAttempts 0
      (matchCandidatesToSpotify r s initialState).1).1 with e | st2
  · rw [build_eq_error m r d s e hE]
    exact hfinal
  · rw [build_eq_ok m r d s st2 hE]
    by_cases hfc : (duplicateFill d (fallbackPhase r d st2).1.matched).1.length < d
    · rw [if_pos hfc]
      exact hfinal
    · rw [if_neg hfc]
      exact hfinal

/-- Witness for C5 at a concrete run whose single round fails to parse. -/
theorem expansion_rounds_spec_witness :
    (⟨1, [], [], 15, []⟩ : GenCall).matchedBefore.length < 5
    ∧ (⟨1, [], [], 15, []⟩ : GenCall).trackCount =
        min 50 (max ((5 - (⟨1, [], [], 15, []⟩ : GenCall).matchedBefore.length) * 3) 8)
    ∧ (⟨1, [], [], 15, []⟩ : GenCall).excludedTracks =
        ((⟨1, [], [], 15, []⟩ : GenCall).matchedBefore.map (fun mm => mm.requested) ++
          (⟨1, [], [], 15, []⟩ : GenCall).unmatchedBefore).take 80
    ∧ 1 ≤ (⟨1, [], [], 15, []⟩ : GenCall).attempt
    ∧ (⟨1, [], [], 15, []⟩ : GenCall).attempt ≤ maxAttempts :=
  (expansion_rounds_spec (fun _ _ _ => GenOutcome.parseFailure) (fun _ => none) 5 []).2
    ⟨1, [], [], 15, []⟩ (by decide)

end Autify
